import Mathlib

/-!
Shallow embedding of the converter in `src/main.go`.

The program reads a capture file into a byte buffer, slices the first
32 bytes as a packed header (`content[:32]`), decodes little-endian
fields from it, checks a CRC-32 (IEEE) over bytes [0:28) against the
stored value at [28:32), converts the raw millisecond timestamp with
`time.UnixMilli(int64(ts))`, and then re-encodes the remaining buffer
(offset 32 onward) as consecutive 4-byte little-endian signed groups,
each reduced to a 16-bit sample via `<<8` then arithmetic `>>16`,
appended to a 44-byte RIFF/WAVE preamble whose two size fields are
back-patched afterwards.

Byte buffers are modelled as `List Nat` (each entry a byte value,
bounded by 256 in the hypotheses of the theorems that need it).
Machine integers are `Nat`/`Int` with explicit `% 2 ^ w` where the Go
code wraps.  The file I/O glue is out of scope, as the spec declares:
the core is `processBuffer`, mapping the input buffer to the decoded
header record (from which the text report is printed and written)
together with either the audio container buffer or the Go runtime
panic of the sample loop.  A detail of the short-buffer path matters:
`ioutil.ReadAll` always returns a slice whose capacity is at least 512
bytes, and a Go re-slice `content[:32]` is bounds-checked against the
capacity, not the length, so on a file shorter than 32 bytes the
slice at main.go:63 succeeds and exposes the zeroed spare capacity;
the header is decoded from that zero-padded window and the report is
written, and the program only panics at the slice `content[32:]` in
the loop bound at main.go:128 (whose default high bound is the
length), before the audio container is written.
-/

/-- The value `binary.LittleEndian.Uint16` reads at offset `off`
(main.go uses only the 32/64-bit variants; the 16-bit reader is used
here to state properties of the 16-bit header fields). -/
def uint16LE (l : List Nat) (off : Nat) : Nat :=
  l.getD off 0 + 256 * l.getD (off + 1) 0

/-- The value `binary.LittleEndian.Uint32` reads at offset `off` of
buffer `l` (main.go:67 etc.): four bytes, least significant first. -/
def uint32LE (l : List Nat) (off : Nat) : Nat :=
  l.getD off 0 + 256 * l.getD (off + 1) 0 + 65536 * l.getD (off + 2) 0 +
    16777216 * l.getD (off + 3) 0

/-- The value `binary.LittleEndian.Uint64` reads at offset `off`
(main.go:68,69): eight bytes, least significant first. -/
def uint64LE (l : List Nat) (off : Nat) : Nat :=
  uint32LE l off + 4294967296 * uint32LE l (off + 4)

/-- The two bytes `binary.LittleEndian.PutUint16` writes (main.go:135):
low byte first; each byte is the Go `byte(...)` truncation. -/
def putUint16LE (n : Nat) : List Nat := [n % 256, n / 256 % 256]

/-- The four bytes `binary.LittleEndian.PutUint32` writes
(main.go:100,104,150,163): low byte first. -/
def putUint32LE (n : Nat) : List Nat :=
  [n % 256, n / 256 % 256, n / 65536 % 256, n / 16777216 % 256]

/-- The CRC-32 IEEE polynomial in its bit-reversed representation, as
used by Go `hash/crc32` (`crc32.IEEE` reversed). -/
def crcPoly : Nat := 0xEDB88320

/-- One bit step of the reflected CRC-32 computation: shift right, and
XOR the polynomial in when the bit shifted out was set. -/
def crc32Round (x : Nat) : Nat :=
  if x % 2 = 1 then x / 2 ^^^ crcPoly else x / 2

/-- Iterate `crc32Round`. -/
def crc32Rounds : Nat → Nat → Nat
  | 0, x => x
  | n + 1, x => crc32Rounds n (crc32Round x)

/-- Process one message byte: XOR it into the running state and run
eight bit rounds.  This is the bitwise form of the table lookup in Go
`hash/crc32` (the table entry for byte `b` is `crc32Rounds 8 b`). -/
def crc32Byte (c b : Nat) : Nat := crc32Rounds 8 (c ^^^ b)

/-- `crc32.ChecksumIEEE` (main.go:75): initial state `0xFFFFFFFF`,
fold the bytes, complement the result. -/
def crc32IEEE (l : List Nat) : Nat :=
  (l.foldl crc32Byte 0xFFFFFFFF) ^^^ 0xFFFFFFFF

/-- The decoded capture header (struct `Header`, main.go:16-24).
`rawTimestamp` is the local variable `timestamp` of main.go:69;
`timestampMillis` is the `time.Time` field reduced to its exact
millisecond offset from the Unix epoch, which is how `time.UnixMilli`
defines it. -/
structure Header where
  sampleRate : Nat
  centerFreq : Nat
  rawTimestamp : Nat
  timestampMillis : Int
  sampleSize : Nat
  reserved : Nat
  crc : Nat
  crcValid : Bool
deriving Repr, DecidableEq

/-- Reinterpretation of an unsigned 64-bit value as Go `int64`
(the `int64(timestamp)` conversion at main.go:84). -/
def int64OfUInt64 (n : Nat) : Int :=
  if n < 2 ^ 63 then (n : Int) else (n : Int) - 2 ^ 64

/-- The Go re-slice `content[:n]` for `n ≤ 512` (main.go:63): the
bound is checked against the capacity of the `ReadAll` buffer, which
is at least 512, never smaller than `n` here; when the file holds
fewer than `n` bytes the tail of the window is the zeroed spare
capacity of the freshly allocated buffer. -/
def padTake (content : List Nat) (n : Nat) : List Nat :=
  content.take n ++ List.replicate (n - content.length) 0

/-- Header decoding, main.go:63-84: the 32-byte window `content[:32]`
(zero-padded from the buffer capacity when the file is shorter),
little-endian field extraction from it, CRC check over its bytes
[0:28) against the stored value at [28:32), and
`time.UnixMilli(int64(timestamp))`. -/
def decodeHeader (content : List Nat) : Header :=
  let header := padTake content 32
  let storedCrc := uint32LE header 28
  let raw := uint64LE header 12
  { sampleRate := uint32LE header 0
    centerFreq := uint64LE header 4
    rawTimestamp := raw
    timestampMillis := int64OfUInt64 raw
    sampleSize := uint32LE header 20
    reserved := uint32LE header 24
    crc := storedCrc
    crcValid := crc32IEEE (header.take 28) == storedCrc }

/-- Reinterpretation of a 32-bit pattern as Go `int32`
(the `int32(binary.LittleEndian.Uint32(...))` conversion, main.go:130). -/
def int32OfBits (n : Nat) : Int :=
  if n % 2 ^ 32 < 2 ^ 31 then ((n % 2 ^ 32 : Nat) : Int)
  else ((n % 2 ^ 32 : Nat) : Int) - 2 ^ 32

/-- The two-complement 32-bit pattern of a Go `int32` value. -/
def bitsOfInt32 (z : Int) : Nat := (Int.emod z (2 ^ 32)).toNat

/-- Go `int32` left shift (`sample << 8`, main.go:131): shift the bit
pattern, discard the high bits, reinterpret as signed. -/
def goShl32 (z : Int) (k : Nat) : Int := int32OfBits (bitsOfInt32 z * 2 ^ k)

/-- Go `int32` right shift (`sample >> 16`, main.go:132): arithmetic,
i.e. floor division by the power of two. -/
def goAsr (z : Int) (k : Nat) : Int := Int.fdiv z (2 ^ k)

/-- Go `uint16(sample)` conversion (main.go:135): the low 16 bits of
the two-complement pattern. -/
def uint16OfInt32 (z : Int) : Nat := (Int.emod z (2 ^ 16)).toNat

/-- The per-group sample transform of main.go:130-135: decode the
4-byte group as `int32`, `<< 8`, arithmetic `>> 16`, truncate to the
16-bit pattern that `PutUint16` then serialises. -/
def transformSample (v : Nat) : Nat :=
  uint16OfInt32 (goAsr (goShl32 (int32OfBits v) 8) 16)

/-- The sample loop of main.go:128-137, restricted to its first `n`
iterations: iteration `i` reads the 4 bytes at offset `4 * i` of the
stream (offset `32 + 4 * i` of the whole buffer) and appends the two
little-endian bytes of the transformed sample. -/
def payloadAux (stream : List Nat) : Nat → List Nat
  | 0 => []
  | i + 1 => payloadAux stream i ++ putUint16LE (transformSample (uint32LE stream (4 * i)))

/-- The full payload: the loop runs `len(content[32:]) / 4` times
(main.go:128), so a trailing partial group is never read. -/
def payload (stream : List Nat) : List Nat := payloadAux stream (stream.length / 4)

/-- The byte-rate computation `(sampleRate * 16 * 2) / 8` of main.go:96,
performed in Go `uint32` arithmetic, so each product wraps at `2 ^ 32`. -/
def sampleRateCalc (s : Nat) : Nat := s * 16 % 2 ^ 32 * 2 % 2 ^ 32 / 8

/-- The 44-byte RIFF/WAVE preamble literal of main.go:106-120, with the
two size fields still zero. -/
def waveHeader (s : Nat) : List Nat :=
  let srb := putUint32LE s
  let brb := putUint32LE (sampleRateCalc s)
  [82, 73, 70, 70,
   0, 0, 0, 0,
   87, 65, 86, 69,
   102, 109, 116, 32,
   16, 0, 0, 0,
   1, 0,
   2, 0,
   srb.getD 0 0, srb.getD 1 0, srb.getD 2 0, srb.getD 3 0,
   brb.getD 0 0, brb.getD 1 0, brb.getD 2 0, brb.getD 3 0,
   4, 0,
   16, 0,
   100, 97, 116, 97,
   0, 0, 0, 0]

/-- Store a run of bytes at consecutive indices (the element-wise
assignments `body[4] = ...` etc., main.go:153-156 and 166-169). -/
def writeBytesAt : List Nat → Nat → List Nat → List Nat
  | l, _, [] => l
  | l, i, b :: bs => writeBytesAt (l.set i b) (i + 1) bs

/-- The back-patching of main.go:146-169: `uint32(len(body) - 8)` into
bytes [4:8), then `uint32(len(body) - 44)` into bytes [40:44).
`List.set` keeps the length, so the second length read is unchanged. -/
def patchSizes (body : List Nat) : List Nat :=
  let withFile := writeBytesAt body 4 (putUint32LE (body.length - 8))
  writeBytesAt withFile 40 (putUint32LE (withFile.length - 44))

/-- The complete audio container: preamble, payload, back-patch. -/
def buildContainer (sampleRate : Nat) (stream : List Nat) : List Nat :=
  patchSizes (waveHeader sampleRate ++ payload stream)

/-- Go runtime faults the program can hit in the modelled core: the
slice `content[32:]` in the loop bound at main.go:128 panics with a
slice-bounds error when the buffer is shorter than 32 bytes (its low
bound 32 then exceeds the default high bound, the length).  The
earlier `content[:32]` at main.go:63 does NOT panic on such a buffer:
it re-slices into the zeroed spare capacity of the `ReadAll` buffer. -/
inductive GoPanic where
  | sliceBound
deriving Repr, DecidableEq

/-- The core pipeline of `main` (file I/O stripped), in program order:
the header is always decoded from the zero-padded 32-byte window and
its report is printed and written (main.go:63-90) — the first
component; then either the audio container is assembled from the
declared sample rate and the stream at offset 32, or, when the buffer
is shorter than 32 bytes, the slice `content[32:]` at main.go:128
panics, after the report is out but before the container is written —
the second component. -/
def processBuffer (content : List Nat) : Header × Except GoPanic (List Nat) :=
  let h := decodeHeader content
  if content.length < 32 then (h, Except.error GoPanic.sliceBound)
  else (h, Except.ok (buildContainer h.sampleRate (content.drop 32)))

/-- Generic little-endian byte-list encoder (width in bytes). -/
def putLE : Nat → Nat → List Nat
  | 0, _ => []
  | w + 1, n => n % 256 :: putLE w (n / 256)

/-- Generic little-endian byte-list decoder. -/
def leDecode : List Nat → Nat
  | [] => 0
  | b :: bs => b + 256 * leDecode bs

/-- Modelled from the spec: re-encoding of the decoded header fields
back into the documented byte layout ([0:4) sample rate, [4:12) centre
frequency, [12:20) raw timestamp, [20:24) sample size, [24:28)
reserved, [28:32) stored CRC, all little-endian).  The source has no
encoder; this definition follows the layout the spec documents, for
the round-trip claim. -/
def encodeHeaderSpec (h : Header) : List Nat :=
  putLE 4 h.sampleRate ++ putLE 8 h.centerFreq ++ putLE 8 h.rawTimestamp ++
    putLE 4 h.sampleSize ++ putLE 4 h.reserved ++ putLE 4 h.crc

set_option maxRecDepth 40000

/-- Sanity check of the CRC model against the standard check value:
the CRC-32 of the ASCII string "123456789" is 0xCBF43926. -/
example : crc32IEEE [49, 50, 51, 52, 53, 54, 55, 56, 57] = 0xCBF43926 := by decide

/-! ## Helper lemmas: `getD` against `getElem?`, slices, and writes -/

theorem getD_eq_getElemq (l : List Nat) (n : Nat) : l.getD n 0 = (l[n]?).getD 0 := by
  rw [List.getD_eq_getD_get?, List.get?_eq_getElem?]

theorem getD_drop (l : List Nat) (n m : Nat) :
    (l.drop n).getD m 0 = l.getD (n + m) 0 := by
  simp [getD_eq_getElemq, List.getElem?_drop]

theorem getD_take (l : List Nat) {n m : Nat} (h : m < n) :
    (l.take n).getD m 0 = l.getD m 0 := by
  simp [getD_eq_getElemq, List.getElem?_take, h]

theorem getD_set_ne (l : List Nat) {i j : Nat} (a : Nat) (h : i ≠ j) :
    (l.set i a).getD j 0 = l.getD j 0 := by
  simp [getD_eq_getElemq, List.getElem?_set_ne h]

theorem getD_set_self (l : List Nat) {i : Nat} (a : Nat) (h : i < l.length) :
    (l.set i a).getD i 0 = a := by
  simp [getD_eq_getElemq, List.getElem?_set, h]

theorem take_set_of_lt (l : List Nat) {i n : Nat} (a : Nat) (h : i < n) :
    (l.set i a).take n = (l.take n).set i a := by
  apply List.ext_getElem?
  intro m
  simp only [List.getElem?_take, List.getElem?_set, List.length_take, List.length_set]
  rcases Nat.lt_or_ge m n with hm | hm
  · rcases eq_or_ne i m with rfl | hne
    · simp [hm, h, Nat.lt_min]
    · simp [hm, hne, List.getElem?_take]
  · have hne : i ≠ m := by omega
    simp [Nat.not_lt.mpr hm, hne]

theorem uint32LE_drop (l : List Nat) (n off : Nat) :
    uint32LE (l.drop n) off = uint32LE l (n + off) := by
  unfold uint32LE
  rw [getD_drop, getD_drop, getD_drop, getD_drop]
  ring_nf

theorem getD_replicate_zero (m j : Nat) : (List.replicate m (0 : Nat)).getD j 0 = 0 := by
  rcases Nat.lt_or_ge j m with hj | hj
  · rw [List.getD_eq_getElem _ _ (by simpa using hj)]
    simp
  · exact List.getD_eq_default _ _ (by simpa using hj)

/-- Reading the zero-padded window agrees with the default-zero read
of the raw buffer at every in-window index. -/
theorem getD_padTake (content : List Nat) {n k : Nat} (h : k < n) :
    (padTake content n).getD k 0 = content.getD k 0 := by
  unfold padTake
  rcases Nat.lt_or_ge k content.length with hk | hk
  · rw [List.getD_append _ _ _ _ (by rw [List.length_take]; omega),
      getD_take content h]
  · rw [List.getD_append_right _ _ _ _ (by rw [List.length_take]; omega),
      getD_replicate_zero, List.getD_eq_default _ _ hk]

theorem uint32LE_padTake (content : List Nat) (off : Nat) (h : off + 4 ≤ 32) :
    uint32LE (padTake content 32) off = uint32LE content off := by
  unfold uint32LE
  rw [@getD_padTake content 32 off (by omega), @getD_padTake content 32 (off + 1) (by omega),
    @getD_padTake content 32 (off + 2) (by omega),
    @getD_padTake content 32 (off + 3) (by omega)]

theorem uint64LE_padTake (content : List Nat) (off : Nat) (h : off + 8 ≤ 32) :
    uint64LE (padTake content 32) off = uint64LE content off := by
  unfold uint64LE
  rw [uint32LE_padTake content off (by omega), uint32LE_padTake content (off + 4) (by omega)]

theorem padTake_eq_take (content : List Nat) {n : Nat} (h : n ≤ content.length) :
    padTake content n = content.take n := by
  unfold padTake
  rw [Nat.sub_eq_zero_of_le h]
  simp

theorem uint32LE_take (l : List Nat) {n off : Nat} (h : off + 4 ≤ n) :
    uint32LE (l.take n) off = uint32LE l off := by
  unfold uint32LE
  rw [@getD_take l n off (by omega), @getD_take l n (off + 1) (by omega),
    @getD_take l n (off + 2) (by omega), @getD_take l n (off + 3) (by omega)]

/-! ## The decoded fields in terms of the raw buffer: the window reads
of `decodeHeader` reduce to the offset reads of the content list. -/

theorem decode_sampleRate (content : List Nat) :
    (decodeHeader content).sampleRate = uint32LE content 0 :=
  uint32LE_padTake content 0 (by omega)

theorem decode_centerFreq (content : List Nat) :
    (decodeHeader content).centerFreq = uint64LE content 4 :=
  uint64LE_padTake content 4 (by omega)

theorem decode_rawTimestamp (content : List Nat) :
    (decodeHeader content).rawTimestamp = uint64LE content 12 :=
  uint64LE_padTake content 12 (by omega)

theorem decode_timestampMillis (content : List Nat) :
    (decodeHeader content).timestampMillis = int64OfUInt64 (uint64LE content 12) :=
  congrArg int64OfUInt64 (uint64LE_padTake content 12 (by omega))

theorem decode_sampleSize (content : List Nat) :
    (decodeHeader content).sampleSize = uint32LE content 20 :=
  uint32LE_padTake content 20 (by omega)

theorem decode_reserved (content : List Nat) :
    (decodeHeader content).reserved = uint32LE content 24 :=
  uint32LE_padTake content 24 (by omega)

theorem decode_crc (content : List Nat) :
    (decodeHeader content).crc = uint32LE content 28 :=
  uint32LE_padTake content 28 (by omega)

/-- For buffers of at least 32 bytes, the window is the plain 32-byte
prefix, so the CRC verdict compares the checksum of bytes [0:28) of
the content against the stored value at [28:32). -/
theorem decode_crcValid (content : List Nat) (h32 : 32 ≤ content.length) :
    (decodeHeader content).crcValid =
      (crc32IEEE (content.take 28) == uint32LE content 28) := by
  show (crc32IEEE ((padTake content 32).take 28) == uint32LE (padTake content 32) 28) = _
  rw [@padTake_eq_take content 32 h32, List.take_take,
    (by omega : (28 : Nat) ⊓ 32 = 28), @uint32LE_take content 32 28 (by omega)]

theorem length_writeBytesAt (l : List Nat) (i : Nat) (bs : List Nat) :
    (writeBytesAt l i bs).length = l.length := by
  induction bs generalizing l i with
  | nil => rfl
  | cons b t ih => rw [writeBytesAt, ih, List.length_set]

theorem getD_writeBytesAt_outside (l : List Nat) (i : Nat) (bs : List Nat) (k : Nat)
    (h : k < i ∨ i + bs.length ≤ k) :
    (writeBytesAt l i bs).getD k 0 = l.getD k 0 := by
  induction bs generalizing l i with
  | nil => rfl
  | cons b t ih =>
    rw [writeBytesAt, ih]
    · exact getD_set_ne l b (by simp at h; omega)
    · simp at h ⊢; omega

theorem drop_writeBytesAt (l : List Nat) (i : Nat) (bs : List Nat) (k : Nat)
    (h : i + bs.length ≤ k) :
    (writeBytesAt l i bs).drop k = l.drop k := by
  induction bs generalizing l i with
  | nil => rfl
  | cons b t ih =>
    rw [writeBytesAt, ih]
    · rw [List.drop_set, if_pos (by simp at h; omega)]
    · simp at h ⊢; omega

theorem getD_writeBytesAt_inside (l : List Nat) (i : Nat) (bs : List Nat) (k : Nat)
    (h1 : k < bs.length) (h2 : i + bs.length ≤ l.length) :
    (writeBytesAt l i bs).getD (i + k) 0 = bs.getD k 0 := by
  induction bs generalizing l i k with
  | nil => simp at h1
  | cons b t ih =>
    rw [writeBytesAt]
    cases k with
    | zero =>
      rw [getD_writeBytesAt_outside _ _ _ _ (Or.inl (by omega))]
      simpa using getD_set_self l (i := i) b (by simp at h2; omega)
    | succ k =>
      have : i + (k + 1) = (i + 1) + k := by omega
      rw [this, ih (l.set i b) (i + 1) k (by simpa using h1) (by simp at h2 ⊢; omega)]
      simp

theorem le_reassemble (n : Nat) :
    n % 256 + 256 * (n / 256 % 256) + 65536 * (n / 65536 % 256) +
      16777216 * (n / 16777216 % 256) = n % 4294967296 := by
  omega

theorem uint32LE_writeBytesAt_put (l : List Nat) (i n : Nat) (h : i + 4 ≤ l.length) :
    uint32LE (writeBytesAt l i (putUint32LE n)) i = n % 2 ^ 32 := by
  have hlen : (putUint32LE n).length = 4 := rfl
  have h0 := getD_writeBytesAt_inside l i (putUint32LE n) 0 (by simp [hlen]) (by omega)
  have h1 := getD_writeBytesAt_inside l i (putUint32LE n) 1 (by simp [hlen]) (by omega)
  have h2 := getD_writeBytesAt_inside l i (putUint32LE n) 2 (by simp [hlen]) (by omega)
  have h3 := getD_writeBytesAt_inside l i (putUint32LE n) 3 (by simp [hlen]) (by omega)
  unfold uint32LE
  rw [show i + 0 = i from rfl] at h0
  rw [h0, h1, h2, h3]
  simp only [putUint32LE, List.getD_cons_zero, List.getD_cons_succ]
  exact le_reassemble n

theorem uint32LE_writeBytesAt_outside (l : List Nat) (i off : Nat) (bs : List Nat)
    (h : off + 4 ≤ i ∨ i + bs.length ≤ off) :
    uint32LE (writeBytesAt l i bs) off = uint32LE l off := by
  unfold uint32LE
  rw [getD_writeBytesAt_outside _ _ _ _ (by omega),
    getD_writeBytesAt_outside _ _ _ _ (by omega),
    getD_writeBytesAt_outside _ _ _ _ (by omega),
    getD_writeBytesAt_outside _ _ _ _ (by omega)]

theorem length_payloadAux (stream : List Nat) (n : Nat) :
    (payloadAux stream n).length = 2 * n := by
  induction n with
  | zero => rfl
  | succ n ih =>
    rw [payloadAux, List.length_append, ih]
    rfl

theorem length_payload (stream : List Nat) :
    (payload stream).length = stream.length / 4 * 2 := by
  rw [payload, length_payloadAux]
  omega

theorem length_waveHeader (s : Nat) : (waveHeader s).length = 44 := rfl

theorem length_patchSizes (body : List Nat) : (patchSizes body).length = body.length := by
  simp only [patchSizes]
  rw [length_writeBytesAt, length_writeBytesAt]

theorem length_buildContainer (s : Nat) (stream : List Nat) :
    (buildContainer s stream).length = 44 + stream.length / 4 * 2 := by
  rw [buildContainer, length_patchSizes, List.length_append, length_waveHeader,
    length_payload]

theorem uint32LE_patchSizes_4 (body : List Nat) (h : 44 ≤ body.length) :
    uint32LE (patchSizes body) 4 = (body.length - 8) % 2 ^ 32 := by
  simp only [patchSizes]
  rw [uint32LE_writeBytesAt_outside _ _ _ _ (Or.inl (by omega)),
    uint32LE_writeBytesAt_put _ _ _ (by omega)]

theorem uint32LE_patchSizes_40 (body : List Nat) (h : 44 ≤ body.length) :
    uint32LE (patchSizes body) 40 = (body.length - 44) % 2 ^ 32 := by
  simp only [patchSizes]
  rw [length_writeBytesAt,
    uint32LE_writeBytesAt_put _ _ _ (by rw [length_writeBytesAt]; omega)]

theorem uint32LE_patchSizes_mid (body : List Nat) (off : Nat)
    (h : 8 ≤ off ∧ off + 4 ≤ 40) :
    uint32LE (patchSizes body) off = uint32LE body off := by
  simp only [patchSizes]
  rw [uint32LE_writeBytesAt_outside _ _ _ _ (Or.inl (by omega)),
    uint32LE_writeBytesAt_outside _ _ _ _ (Or.inr (by simp [putUint32LE]; omega))]

theorem drop44_patchSizes (body : List Nat) : (patchSizes body).drop 44 = body.drop 44 := by
  simp only [patchSizes]
  rw [drop_writeBytesAt _ _ _ _ (by simp [putUint32LE]),
    drop_writeBytesAt _ _ _ _ (by simp [putUint32LE])]

theorem drop44_buildContainer (s : Nat) (stream : List Nat) :
    (buildContainer s stream).drop 44 = payload stream := by
  rw [buildContainer, drop44_patchSizes,
    show (44 : Nat) = (waveHeader s).length from rfl, List.drop_left]

theorem processBuffer_ok (content : List Nat) (h : 32 ≤ content.length) :
    processBuffer content =
      (decodeHeader content,
        Except.ok (buildContainer (decodeHeader content).sampleRate (content.drop 32))) := by
  unfold processBuffer
  rw [if_neg (by omega)]

/-! ## Claim theorems -/

/-- Claim C2 (status: code bug).  On any input buffer shorter than 32
bytes the program does NOT fail with an explicit truncated-input
error: the slice `content[:32]` at main.go:63 succeeds against the
capacity (at least 512) of the `ReadAll` buffer, the header fields are
decoded from the zero-padded window and the text report IS printed
and written (main.go:87-90); the run then aborts with the Go
slice-bounds panic of `content[32:]` at main.go:128, so the audio
container is never produced.  The claim and the spec error taxonomy
instead require a TruncatedInput failure before any field access,
with neither output written — the spec itself flags the missing
length guard as a required hardening fix, so the code is the slip. -/
theorem c2_short_input_report_then_panic (content : List Nat)
    (h : content.length < 32) :
    processBuffer content = (decodeHeader content, Except.error GoPanic.sliceBound) := by
  unfold processBuffer
  rw [if_pos h]

/-- Witness for C2 at the concrete input of the spec scenario: a
31-byte buffer. -/
theorem c2_short_input_report_then_panic_witness :
    (List.replicate 31 0).length < 32 ∧
      processBuffer (List.replicate 31 0) =
        (decodeHeader (List.replicate 31 0), Except.error GoPanic.sliceBound) :=
  ⟨by decide, c2_short_input_report_then_panic (List.replicate 31 0) (by decide)⟩

/-- Claim C3 (status: confirmed).  After back-patching, bytes [4:8) of
the container hold (total length - 8) and bytes [40:44) hold
(total length - 44), as little-endian unsigned 32-bit values (exact
whenever the total length fits in 32 bits, which holds for every
container below 4 GiB); with an empty sample region the container is
exactly 44 bytes, with data size 0 and total-minus-8 field 36. -/
theorem c3_backpatch (content : List Nat) (h32 : 32 ≤ content.length) :
    ∃ hdr container, processBuffer content = (hdr, Except.ok container) ∧
      uint32LE container 4 = (container.length - 8) % 2 ^ 32 ∧
      uint32LE container 40 = (container.length - 44) % 2 ^ 32 ∧
      (container.length < 2 ^ 32 →
        uint32LE container 4 = container.length - 8 ∧
        uint32LE container 40 = container.length - 44) ∧
      (content.length = 32 →
        container.length = 44 ∧ uint32LE container 4 = 36 ∧ uint32LE container 40 = 0) := by
  refine ⟨decodeHeader content,
    buildContainer (decodeHeader content).sampleRate (content.drop 32),
    processBuffer_ok content h32, ?_, ?_, ?_, ?_⟩
  all_goals
    set s := (decodeHeader content).sampleRate with hs
    have hbody : 44 ≤ (waveHeader s ++ payload (content.drop 32)).length := by
      rw [List.length_append, length_waveHeader]; omega
    have hlen := length_buildContainer s (content.drop 32)
    have h4 : uint32LE (buildContainer s (content.drop 32)) 4 =
        ((buildContainer s (content.drop 32)).length - 8) % 2 ^ 32 := by
      rw [hlen, buildContainer, uint32LE_patchSizes_4 _ hbody, List.length_append,
        length_waveHeader, length_payload]
    have h40 : uint32LE (buildContainer s (content.drop 32)) 40 =
        ((buildContainer s (content.drop 32)).length - 44) % 2 ^ 32 := by
      rw [hlen, buildContainer, uint32LE_patchSizes_40 _ hbody, List.length_append,
        length_waveHeader, length_payload]
  · exact h4
  · exact h40
  · intro hsmall
    rw [h4, h40, hlen] at *
    constructor <;> omega
  · intro h32e
    have hstream : (content.drop 32).length = 0 := by rw [List.length_drop]; omega
    rw [h4, h40, hlen, hstream]
    norm_num

/-- Witness for C3 at a concrete input: the 32-byte all-zero buffer. -/
theorem c3_backpatch_witness :
    32 ≤ (List.replicate 32 0).length ∧
      (∃ hdr container, processBuffer (List.replicate 32 0) = (hdr, Except.ok container) ∧
        uint32LE container 4 = (container.length - 8) % 2 ^ 32 ∧
        uint32LE container 40 = (container.length - 44) % 2 ^ 32 ∧
        (container.length < 2 ^ 32 →
          uint32LE container 4 = container.length - 8 ∧
          uint32LE container 40 = container.length - 44) ∧
        ((List.replicate 32 (0 : Nat)).length = 32 →
          container.length = 44 ∧ uint32LE container 4 = 36 ∧ uint32LE container 40 = 0)) :=
  ⟨by decide, c3_backpatch (List.replicate 32 0) (by decide)⟩

theorem uint32LE_append_left (l1 l2 : List Nat) (off : Nat) (h : off + 4 ≤ l1.length) :
    uint32LE (l1 ++ l2) off = uint32LE l1 off := by
  unfold uint32LE
  rw [List.getD_append l1 l2 0 off (by omega),
    List.getD_append l1 l2 0 (off + 1) (by omega),
    List.getD_append l1 l2 0 (off + 2) (by omega),
    List.getD_append l1 l2 0 (off + 3) (by omega)]

theorem uint32LE_buildContainer_28 (s : Nat) (stream : List Nat) :
    uint32LE (buildContainer s stream) 28 = sampleRateCalc s := by
  have hlit : uint32LE (waveHeader s) 28 =
      sampleRateCalc s % 256 + 256 * (sampleRateCalc s / 256 % 256) +
        65536 * (sampleRateCalc s / 65536 % 256) +
        16777216 * (sampleRateCalc s / 16777216 % 256) := rfl
  have hcap : sampleRateCalc s < 2 ^ 32 := by unfold sampleRateCalc; omega
  rw [buildContainer, uint32LE_patchSizes_mid _ _ (by omega),
    uint32LE_append_left _ _ _ (by rw [length_waveHeader]; omega), hlit]
  have := le_reassemble (sampleRateCalc s)
  omega

/-- Counterexample input for claim C4: a 32-byte buffer whose
sample-rate field holds `2 ^ 27`. -/
def c4buf : List Nat := [0, 0, 0, 8] ++ List.replicate 28 0

/-- Claim C4 counterexample: for the decoded sample rate `2 ^ 27` the
byte-rate field of the produced container is 0, not
sample_rate × 4 = 536870912 — the `uint32` product `sampleRate * 16 * 2`
wraps before the division by 8. -/
theorem c4_byte_rate_counterexample :
    (decodeHeader c4buf).sampleRate = 134217728 ∧
    processBuffer c4buf =
      (decodeHeader c4buf,
        Except.ok (buildContainer (decodeHeader c4buf).sampleRate (c4buf.drop 32))) ∧
    uint32LE (buildContainer (decodeHeader c4buf).sampleRate (c4buf.drop 32)) 28 = 0 ∧
    (decodeHeader c4buf).sampleRate * 4 = 536870912 := by
  refine ⟨by decide, processBuffer_ok c4buf (by decide), by decide, by decide⟩

/-- Claim C4 (status: corrected).  The byte-rate field at [28:32) of
the container holds `(sample_rate × 16 × 2 mod 2 ^ 32) ÷ 8`, which
equals `4 × (sample_rate mod 2 ^ 27)`: it is sample_rate × 4 exactly
when sample_rate < 2 ^ 27 (so 48000 yields 192000), and sample_rate 0
is accepted and propagated verbatim, but for sample_rate ≥ 2 ^ 27 the
`uint32` product wraps and the stored byte rate is not sample_rate × 4. -/
theorem c4_byte_rate (content : List Nat) (h32 : 32 ≤ content.length) :
    ∃ hdr container, processBuffer content = (hdr, Except.ok container) ∧
      uint32LE container 28 = sampleRateCalc hdr.sampleRate ∧
      sampleRateCalc hdr.sampleRate = 4 * (hdr.sampleRate % 2 ^ 27) ∧
      (hdr.sampleRate < 2 ^ 27 → uint32LE container 28 = 4 * hdr.sampleRate) ∧
      (hdr.sampleRate = 0 → uint32LE container 28 = 0) := by
  refine ⟨decodeHeader content,
    buildContainer (decodeHeader content).sampleRate (content.drop 32),
    processBuffer_ok content h32, uint32LE_buildContainer_28 _ _, ?_, ?_, ?_⟩
  · unfold sampleRateCalc; omega
  · intro hlt
    rw [uint32LE_buildContainer_28]
    unfold sampleRateCalc; omega
  · intro h0
    rw [uint32LE_buildContainer_28, h0]
    rfl

/-- Witness for C4 at a concrete input: a 32-byte buffer declaring
sample rate 48000 (bytes 80 BB 00 00), whose stored byte rate is then
192000. -/
theorem c4_byte_rate_witness :
    32 ≤ ([128, 187, 0, 0] ++ List.replicate 28 (0 : Nat)).length ∧
      (∃ hdr container,
        processBuffer ([128, 187, 0, 0] ++ List.replicate 28 0) =
          (hdr, Except.ok container) ∧
        uint32LE container 28 = sampleRateCalc hdr.sampleRate ∧
        sampleRateCalc hdr.sampleRate = 4 * (hdr.sampleRate % 2 ^ 27) ∧
        (hdr.sampleRate < 2 ^ 27 → uint32LE container 28 = 4 * hdr.sampleRate) ∧
        (hdr.sampleRate = 0 → uint32LE container 28 = 0)) :=
  ⟨by decide, c4_byte_rate ([128, 187, 0, 0] ++ List.replicate 28 0) (by decide)⟩

/-- Counterexample input for claim C9: a 32-byte buffer whose raw
timestamp field (bytes [12:20)) holds `2 ^ 63`. -/
def c9buf : List Nat := List.replicate 19 0 ++ [128] ++ List.replicate 12 0

/-- Claim C9 counterexample: for the raw timestamp `2 ^ 63` the code
passes `int64(timestamp)` to `time.UnixMilli`, so the derived calendar
time lies `2 ^ 63` milliseconds BEFORE the epoch, not `2 ^ 63`
milliseconds after it as the claim states. -/
theorem c9_timestamp_counterexample :
    (decodeHeader c9buf).rawTimestamp = 2 ^ 63 ∧
    (decodeHeader c9buf).timestampMillis = -(2 ^ 63) ∧
    (decodeHeader c9buf).timestampMillis ≠ ((decodeHeader c9buf).rawTimestamp : Int) := by
  decide

/-- Claim C9 (status: corrected).  For every input buffer, the
derived calendar timestamp is `int64(raw_timestamp)` milliseconds
from the Unix epoch: it equals raw_timestamp milliseconds after the
epoch exactly when raw_timestamp < 2 ^ 63, and for every
raw_timestamp ≥ 2 ^ 63 the `int64` reinterpretation makes it
`raw_timestamp - 2 ^ 64` milliseconds, a time before the epoch. -/
theorem c9_timestamp (content : List Nat) :
    (decodeHeader content).rawTimestamp = uint64LE content 12 ∧
    (uint64LE content 12 < 2 ^ 63 →
      (decodeHeader content).timestampMillis = (uint64LE content 12 : Int)) ∧
    (2 ^ 63 ≤ uint64LE content 12 →
      (decodeHeader content).timestampMillis =
        (uint64LE content 12 : Int) - 2 ^ 64) := by
  refine ⟨decode_rawTimestamp content, ?_, ?_⟩
  · intro hlt
    rw [decode_timestampMillis content, int64OfUInt64, if_pos hlt]
  · intro hge
    rw [decode_timestampMillis content, int64OfUInt64, if_neg (by omega)]

/-! ## Slice decoding: `leDecode` over `drop`/`take` slices agrees with
the offset-indexed readers of `binary.LittleEndian`. -/

theorem leDecode_append (l1 l2 : List Nat) :
    leDecode (l1 ++ l2) = leDecode l1 + 256 ^ l1.length * leDecode l2 := by
  induction l1 with
  | nil => simp [leDecode]
  | cons b t ih =>
    simp only [List.cons_append, leDecode, List.append_eq, ih, List.length_cons]
    ring

theorem uint32LE_eq_leDecode (l : List Nat) (off : Nat) (h : off + 4 ≤ l.length) :
    leDecode ((l.drop off).take 4) = uint32LE l off := by
  have h4 : 4 ≤ (l.drop off).length := by rw [List.length_drop]; omega
  rcases hd : l.drop off with _ | ⟨a, _ | ⟨b, _ | ⟨c, _ | ⟨d, r⟩⟩⟩⟩ <;>
    rw [hd] at h4 <;> simp at h4
  have e0 : l.getD (off + 0) 0 = a := by rw [← getD_drop, hd]; rfl
  have e1 : l.getD (off + 1) 0 = b := by rw [← getD_drop, hd]; rfl
  have e2 : l.getD (off + 2) 0 = c := by rw [← getD_drop, hd]; rfl
  have e3 : l.getD (off + 3) 0 = d := by rw [← getD_drop, hd]; rfl
  rw [show off + 0 = off from rfl] at e0
  unfold uint32LE
  rw [e0, e1, e2, e3]
  simp [leDecode]
  ring

theorem uint64LE_eq_leDecode (l : List Nat) (off : Nat) (h : off + 8 ≤ l.length) :
    leDecode ((l.drop off).take 8) = uint64LE l off := by
  have hsplit : (l.drop off).take 8 =
      (l.drop off).take 4 ++ (l.drop (off + 4)).take 4 := by
    rw [show (8 : Nat) = 4 + 4 from rfl, List.take_add, List.drop_drop]
  have hlen4 : ((l.drop off).take 4).length = 4 := by
    rw [List.length_take, List.length_drop]
    omega
  rw [hsplit, leDecode_append, hlen4, uint32LE_eq_leDecode l off (by omega),
    uint32LE_eq_leDecode l (off + 4) (by omega)]
  rfl

/-- Claim C6 (status: confirmed).  The header decoder extracts exactly
the documented little-endian slices of the buffer: sample rate from
[0:4), centre frequency from [4:12), raw timestamp from [12:20),
sample size from [20:24), reserved from [24:28), stored CRC from
[28:32). -/
theorem c6_header_layout (content : List Nat) (h32 : 32 ≤ content.length) :
    (decodeHeader content).sampleRate = leDecode ((content.drop 0).take 4) ∧
    (decodeHeader content).centerFreq = leDecode ((content.drop 4).take 8) ∧
    (decodeHeader content).rawTimestamp = leDecode ((content.drop 12).take 8) ∧
    (decodeHeader content).sampleSize = leDecode ((content.drop 20).take 4) ∧
    (decodeHeader content).reserved = leDecode ((content.drop 24).take 4) ∧
    (decodeHeader content).crc = leDecode ((content.drop 28).take 4) := by
  refine ⟨?_, ?_, ?_, ?_, ?_, ?_⟩
  · rw [uint32LE_eq_leDecode content 0 (by omega)]; exact decode_sampleRate content
  · rw [uint64LE_eq_leDecode content 4 (by omega)]; exact decode_centerFreq content
  · rw [uint64LE_eq_leDecode content 12 (by omega)]; exact decode_rawTimestamp content
  · rw [uint32LE_eq_leDecode content 20 (by omega)]; exact decode_sampleSize content
  · rw [uint32LE_eq_leDecode content 24 (by omega)]; exact decode_reserved content
  · rw [uint32LE_eq_leDecode content 28 (by omega)]; exact decode_crc content

/-- Witness for C6 at a concrete input: a 32-byte buffer with
distinct byte values. -/
theorem c6_header_layout_witness :
    32 ≤ (List.range 32).length ∧
      ((decodeHeader (List.range 32)).sampleRate =
          leDecode (((List.range 32).drop 0).take 4) ∧
        (decodeHeader (List.range 32)).centerFreq =
          leDecode (((List.range 32).drop 4).take 8) ∧
        (decodeHeader (List.range 32)).rawTimestamp =
          leDecode (((List.range 32).drop 12).take 8) ∧
        (decodeHeader (List.range 32)).sampleSize =
          leDecode (((List.range 32).drop 20).take 4) ∧
        (decodeHeader (List.range 32)).reserved =
          leDecode (((List.range 32).drop 24).take 4) ∧
        (decodeHeader (List.range 32)).crc =
          leDecode (((List.range 32).drop 28).take 4)) :=
  ⟨by decide, c6_header_layout (List.range 32) (by decide)⟩

theorem putLE_leDecode (l : List Nat) (hb : ∀ b ∈ l, b < 256) :
    putLE l.length (leDecode l) = l := by
  induction l with
  | nil => rfl
  | cons b t ih =>
    have hb256 : b < 256 := hb b (by simp)
    rw [List.length_cons, putLE, leDecode]
    congr 1
    · omega
    · rw [show (b + 256 * leDecode t) / 256 = leDecode t by omega]
      exact ih (fun x hx => hb x (List.mem_cons_of_mem _ hx))

theorem putLE_leDecode_len (w : Nat) (l : List Nat) (hw : l.length = w)
    (hb : ∀ b ∈ l, b < 256) : putLE w (leDecode l) = l := by
  subst hw
  exact putLE_leDecode l hb

/-- Claim C8 (status: confirmed).  Decoding a 32-byte header buffer
and re-encoding the decoded fields back into the documented
little-endian layout reproduces the original 32 bytes exactly,
reserved and CRC bytes included. -/
theorem c8_header_roundtrip (content : List Nat) (hlen : content.length = 32)
    (hb : ∀ b ∈ content, b < 256) :
    encodeHeaderSpec (decodeHeader content) = content := by
  have hbs : ∀ off w : Nat, ∀ b ∈ (content.drop off).take w, b < 256 :=
    fun off w b hbm => hb b (List.mem_of_mem_drop (List.mem_of_mem_take hbm))
  have hsl : ∀ off w : Nat, off + w ≤ 32 → ((content.drop off).take w).length = w := by
    intro off w h
    rw [List.length_take, List.length_drop, hlen]
    omega
  have enc0 : putLE 4 (decodeHeader content).sampleRate = (content.drop 0).take 4 := by
    rw [decode_sampleRate content,
      ← uint32LE_eq_leDecode content 0 (by omega)]
    exact putLE_leDecode_len 4 _ (hsl 0 4 (by omega)) (hbs 0 4)
  have enc1 : putLE 8 (decodeHeader content).centerFreq = (content.drop 4).take 8 := by
    rw [decode_centerFreq content,
      ← uint64LE_eq_leDecode content 4 (by omega)]
    exact putLE_leDecode_len 8 _ (hsl 4 8 (by omega)) (hbs 4 8)
  have enc2 : putLE 8 (decodeHeader content).rawTimestamp = (content.drop 12).take 8 := by
    rw [decode_rawTimestamp content,
      ← uint64LE_eq_leDecode content 12 (by omega)]
    exact putLE_leDecode_len 8 _ (hsl 12 8 (by omega)) (hbs 12 8)
  have enc3 : putLE 4 (decodeHeader content).sampleSize = (content.drop 20).take 4 := by
    rw [decode_sampleSize content,
      ← uint32LE_eq_leDecode content 20 (by omega)]
    exact putLE_leDecode_len 4 _ (hsl 20 4 (by omega)) (hbs 20 4)
  have enc4 : putLE 4 (decodeHeader content).reserved = (content.drop 24).take 4 := by
    rw [decode_reserved content,
      ← uint32LE_eq_leDecode content 24 (by omega)]
    exact putLE_leDecode_len 4 _ (hsl 24 4 (by omega)) (hbs 24 4)
  have enc5 : putLE 4 (decodeHeader content).crc = (content.drop 28).take 4 := by
    rw [decode_crc content,
      ← uint32LE_eq_leDecode content 28 (by omega)]
    exact putLE_leDecode_len 4 _ (hsl 28 4 (by omega)) (hbs 28 4)
  have m1 : (content.drop 24).take 4 ++ (content.drop 28).take 4 =
      (content.drop 24).take 8 := by
    rw [show content.drop 28 = (content.drop 24).drop 4 by rw [List.drop_drop],
      ← List.take_add]
  have m2 : (content.drop 20).take 4 ++ (content.drop 24).take 8 =
      (content.drop 20).take 12 := by
    rw [show content.drop 24 = (content.drop 20).drop 4 by rw [List.drop_drop],
      ← List.take_add]
  have m3 : (content.drop 12).take 8 ++ (content.drop 20).take 12 =
      (content.drop 12).take 20 := by
    rw [show content.drop 20 = (content.drop 12).drop 8 by rw [List.drop_drop],
      ← List.take_add]
  have m4 : (content.drop 4).take 8 ++ (content.drop 12).take 20 =
      (content.drop 4).take 28 := by
    rw [show content.drop 12 = (content.drop 4).drop 8 by rw [List.drop_drop],
      ← List.take_add]
  have m5 : content.take 4 ++ (content.drop 4).take 28 = content.take 32 :=
    (List.take_add content 4 28).symm
  rw [encodeHeaderSpec, enc0, enc1, enc2, enc3, enc4, enc5, List.drop_zero]
  rw [List.append_assoc, List.append_assoc, List.append_assoc, List.append_assoc] at *
  rw [m1, m2, m3, m4, m5]
  exact List.take_of_length_le (by omega)

/-- Witness for C8 at a concrete input: the 32-byte buffer with bytes
0, 1, ..., 31. -/
theorem c8_header_roundtrip_witness :
    (List.range 32).length = 32 ∧ (∀ b ∈ List.range 32, b < 256) ∧
      encodeHeaderSpec (decodeHeader (List.range 32)) = List.range 32 :=
  ⟨by decide, by decide, c8_header_roundtrip (List.range 32) (by decide) (by decide)⟩

/-- Claim C7 (status: confirmed).  Before back-patching, the emitted
44-byte preamble contains exactly the RIFF/WAVE/fmt/data tags,
fmt-subchunk size 16, audio format 1 (PCM), channel count 2, the
sample rate verbatim, the computed byte rate, block-align 4,
bits-per-sample 16, and zero placeholders in both size fields. -/
theorem c7_wave_preamble (s : Nat) (hs : s < 2 ^ 32) :
    (waveHeader s).length = 44 ∧
    (waveHeader s).take 4 = [82, 73, 70, 70] ∧
    uint32LE (waveHeader s) 4 = 0 ∧
    ((waveHeader s).drop 8).take 4 = [87, 65, 86, 69] ∧
    ((waveHeader s).drop 12).take 4 = [102, 109, 116, 32] ∧
    uint32LE (waveHeader s) 16 = 16 ∧
    uint16LE (waveHeader s) 20 = 1 ∧
    uint16LE (waveHeader s) 22 = 2 ∧
    uint32LE (waveHeader s) 24 = s ∧
    uint32LE (waveHeader s) 28 = sampleRateCalc s ∧
    uint16LE (waveHeader s) 32 = 4 ∧
    uint16LE (waveHeader s) 34 = 16 ∧
    ((waveHeader s).drop 36).take 4 = [100, 97, 116, 97] ∧
    uint32LE (waveHeader s) 40 = 0 := by
  refine ⟨rfl, rfl, rfl, rfl, rfl, rfl, rfl, rfl, ?_, ?_, rfl, rfl, rfl, rfl⟩
  · have hlit : uint32LE (waveHeader s) 24 =
        s % 256 + 256 * (s / 256 % 256) + 65536 * (s / 65536 % 256) +
          16777216 * (s / 16777216 % 256) := rfl
    have := le_reassemble s
    omega
  · have hlit : uint32LE (waveHeader s) 28 =
        sampleRateCalc s % 256 + 256 * (sampleRateCalc s / 256 % 256) +
          65536 * (sampleRateCalc s / 65536 % 256) +
          16777216 * (sampleRateCalc s / 16777216 % 256) := rfl
    have hcap : sampleRateCalc s < 2 ^ 32 := by unfold sampleRateCalc; omega
    have := le_reassemble (sampleRateCalc s)
    omega

/-- Witness for C7 at the concrete sample rate 48000. -/
theorem c7_wave_preamble_witness :
    (48000 : Nat) < 2 ^ 32 ∧
      ((waveHeader 48000).length = 44 ∧
        (waveHeader 48000).take 4 = [82, 73, 70, 70] ∧
        uint32LE (waveHeader 48000) 4 = 0 ∧
        ((waveHeader 48000).drop 8).take 4 = [87, 65, 86, 69] ∧
        ((waveHeader 48000).drop 12).take 4 = [102, 109, 116, 32] ∧
        uint32LE (waveHeader 48000) 16 = 16 ∧
        uint16LE (waveHeader 48000) 20 = 1 ∧
        uint16LE (waveHeader 48000) 22 = 2 ∧
        uint32LE (waveHeader 48000) 24 = 48000 ∧
        uint32LE (waveHeader 48000) 28 = sampleRateCalc 48000 ∧
        uint16LE (waveHeader 48000) 32 = 4 ∧
        uint16LE (waveHeader 48000) 34 = 16 ∧
        ((waveHeader 48000).drop 36).take 4 = [100, 97, 116, 97] ∧
        uint32LE (waveHeader 48000) 40 = 0) :=
  ⟨by decide, c7_wave_preamble 48000 (by decide)⟩

/-- The composed Go shift sequence extracts bits [8:24) of the 32-bit
group: the 16-bit pattern finally serialised is `v / 2 ^ 8 % 2 ^ 16`
(the sign-extension bits produced by the arithmetic shift lie above
bit 15 and are discarded by the `uint16` truncation). -/
theorem transformSample_eq (v : Nat) (h : v < 2 ^ 32) :
    transformSample v = v / 256 % 65536 := by
  unfold transformSample goAsr goShl32 uint16OfInt32 bitsOfInt32 int32OfBits
  rw [Int.fdiv_eq_ediv _ (by norm_num)]
  simp only [show ∀ a b : Int, Int.emod a b = a % b from fun _ _ => rfl,
    show ∀ a b : Int, Int.ediv a b = a / b from fun _ _ => rfl]
  split_ifs <;> omega

theorem payloadAux_slice (stream : List Nat) (n i : Nat) (h : i < n) :
    ((payloadAux stream n).drop (2 * i)).take 2 =
      putUint16LE (transformSample (uint32LE stream (4 * i))) := by
  induction n with
  | zero => omega
  | succ n ih =>
    rcases Nat.lt_or_ge i n with hlt | hge
    · rw [payloadAux,
        List.drop_append_of_le_length (by rw [length_payloadAux]; omega),
        List.take_append_of_le_length (by rw [List.length_drop, length_payloadAux]; omega),
        ih hlt]
    · have hi : i = n := by omega
      subst hi
      rw [payloadAux,
        show 2 * i = (payloadAux stream i).length by rw [length_payloadAux],
        List.drop_left]
      rfl

/-- Claim C1 (status: confirmed).  The payload is built from the
consecutive non-overlapping 4-byte groups of the buffer starting at
offset 32, stopping at the last full group (the loop bound is
`(len - 32) / 4`, so a trailing partial group is dropped and no
out-of-range read occurs); group `i` contributes the 2 little-endian
bytes of the transformed sample of the 32-bit little-endian value at
offset `32 + 4 i`; the transform equals extracting bits [8:24); and
the payload length is exactly `(len - 32) / 4 * 2`. -/
theorem c1_payload_loop (content : List Nat) (h32 : 32 ≤ content.length) :
    ∃ hdr container, processBuffer content = (hdr, Except.ok container) ∧
      container.length = 44 + (content.length - 32) / 4 * 2 ∧
      container.drop 44 = payload (content.drop 32) ∧
      (payload (content.drop 32)).length = (content.length - 32) / 4 * 2 ∧
      (∀ i, i < (content.length - 32) / 4 →
        ((payload (content.drop 32)).drop (2 * i)).take 2 =
          putUint16LE (transformSample (uint32LE content (32 + 4 * i)))) ∧
      (∀ v, v < 2 ^ 32 → transformSample v = v / 256 % 65536) := by
  refine ⟨decodeHeader content,
    buildContainer (decodeHeader content).sampleRate (content.drop 32),
    processBuffer_ok content h32, ?_, drop44_buildContainer _ _, ?_, ?_, ?_⟩
  · rw [length_buildContainer, List.length_drop]
  · rw [length_payload, List.length_drop]
  · intro i hi
    rw [payload, payloadAux_slice _ _ i (by rw [List.length_drop]; exact hi),
      uint32LE_drop]
  · exact fun v hv => transformSample_eq v hv

/-- Witness for C1 at a concrete input: a 36-byte buffer whose single
sample group is 0x00010000 (spec scenario value). -/
theorem c1_payload_loop_witness :
    32 ≤ (List.replicate 32 0 ++ [0, 0, 1, 0] : List Nat).length ∧
      (∃ hdr container,
        processBuffer (List.replicate 32 0 ++ [0, 0, 1, 0]) =
          (hdr, Except.ok container) ∧
        container.length =
          44 + ((List.replicate 32 0 ++ [0, 0, 1, 0] : List Nat).length - 32) / 4 * 2 ∧
        container.drop 44 = payload ((List.replicate 32 0 ++ [0, 0, 1, 0]).drop 32) ∧
        (payload ((List.replicate 32 0 ++ [0, 0, 1, 0]).drop 32)).length =
          ((List.replicate 32 0 ++ [0, 0, 1, 0] : List Nat).length - 32) / 4 * 2 ∧
        (∀ i, i < ((List.replicate 32 0 ++ [0, 0, 1, 0] : List Nat).length - 32) / 4 →
          ((payload ((List.replicate 32 0 ++ [0, 0, 1, 0]).drop 32)).drop (2 * i)).take 2 =
            putUint16LE
              (transformSample (uint32LE (List.replicate 32 0 ++ [0, 0, 1, 0]) (32 + 4 * i)))) ∧
        (∀ v, v < 2 ^ 32 → transformSample v = v / 256 % 65536)) :=
  ⟨by decide, c1_payload_loop (List.replicate 32 0 ++ [0, 0, 1, 0]) (by decide)⟩

/-- Claim C10 (status: confirmed).  Two input buffers that agree on
the sample-rate bytes [0:4) and on everything from offset 32 onward
produce the identical audio container: the centre-frequency,
timestamp, sample-size, reserved and CRC header fields, and the
outcome of the CRC check, have no influence on the container. -/
theorem c10_container_noninterference (x y : List Nat)
    (h1 : 32 ≤ x.length) (h2 : 32 ≤ y.length)
    (hrate : x.take 4 = y.take 4) (hstream : x.drop 32 = y.drop 32) :
    ∃ hdrx hdry container,
      processBuffer x = (hdrx, Except.ok container) ∧
      processBuffer y = (hdry, Except.ok container) := by
  have e : ∀ k, k < 4 → x.getD k 0 = y.getD k 0 := by
    intro k hk
    rw [← getD_take x hk, ← getD_take y hk, hrate]
  have hsr : (decodeHeader x).sampleRate = (decodeHeader y).sampleRate := by
    rw [decode_sampleRate x, decode_sampleRate y]
    unfold uint32LE
    rw [e 0 (by omega), e 1 (by omega), e 2 (by omega), e 3 (by omega)]
  refine ⟨decodeHeader x, decodeHeader y,
    buildContainer (decodeHeader x).sampleRate (x.drop 32),
    processBuffer_ok x h1, ?_⟩
  rw [processBuffer_ok y h2, hsr, hstream]

/-- Witness for C10 at concrete inputs: two 32-byte buffers that
differ only in the centre-frequency field (byte 4). -/
theorem c10_container_noninterference_witness :
    32 ≤ (List.replicate 32 (0 : Nat)).length ∧
      32 ≤ ([0, 0, 0, 0, 1] ++ List.replicate 27 (0 : Nat)).length ∧
      (List.replicate 32 (0 : Nat)).take 4 =
        ([0, 0, 0, 0, 1] ++ List.replicate 27 0).take 4 ∧
      (List.replicate 32 (0 : Nat)).drop 32 =
        ([0, 0, 0, 0, 1] ++ List.replicate 27 0).drop 32 ∧
      (∃ hdrx hdry container,
        processBuffer (List.replicate 32 0) = (hdrx, Except.ok container) ∧
        processBuffer ([0, 0, 0, 0, 1] ++ List.replicate 27 0) =
          (hdry, Except.ok container)) :=
  ⟨by decide, by decide, by decide, by decide,
    c10_container_noninterference (List.replicate 32 0)
      ([0, 0, 0, 0, 1] ++ List.replicate 27 0) (by decide) (by decide)
      (by decide) (by decide)⟩

/-! ## CRC-32 linearity over GF(2) and the single-bit-flip property -/

theorem xor_div_two (a b : Nat) : (a ^^^ b) / 2 = a / 2 ^^^ b / 2 := by
  apply Nat.eq_of_testBit_eq
  intro i
  rw [Nat.testBit_div_two, Nat.testBit_xor, Nat.testBit_xor,
    Nat.testBit_div_two, Nat.testBit_div_two]

theorem xor_mod_two (a b : Nat) : (a ^^^ b) % 2 = (a % 2 + b % 2) % 2 := by
  have h := Nat.testBit_xor a b 0
  simp only [Nat.testBit_zero] at h
  rcases Nat.mod_two_eq_zero_or_one a with h1 | h1 <;>
    rcases Nat.mod_two_eq_zero_or_one b with h2 | h2 <;>
      simp [h1, h2] at h ⊢ <;> omega

theorem crc32Round_xor (a b : Nat) :
    crc32Round (a ^^^ b) = crc32Round a ^^^ crc32Round b := by
  unfold crc32Round
  have hm := xor_mod_two a b
  rcases Nat.mod_two_eq_zero_or_one a with h1 | h1 <;>
    rcases Nat.mod_two_eq_zero_or_one b with h2 | h2
  · rw [if_neg (by omega), if_neg (by omega), if_neg (by omega), xor_div_two]
  · rw [if_pos (by omega), if_neg (by omega), if_pos (by omega), xor_div_two,
      Nat.xor_assoc]
  · rw [if_pos (by omega), if_pos (by omega), if_neg (by omega), xor_div_two]
    rw [Nat.xor_comm (a / 2 ^^^ crcPoly) (b / 2), ← Nat.xor_assoc, Nat.xor_comm (b / 2),
      Nat.xor_assoc]
  · rw [if_neg (by omega), if_pos (by omega), if_pos (by omega), xor_div_two]
    rw [Nat.xor_assoc, Nat.xor_comm crcPoly, Nat.xor_assoc, Nat.xor_self, Nat.xor_zero]

theorem crc32Rounds_xor (n a b : Nat) :
    crc32Rounds n (a ^^^ b) = crc32Rounds n a ^^^ crc32Rounds n b := by
  induction n generalizing a b with
  | zero => rfl
  | succ n ih => rw [crc32Rounds, crc32Round_xor, ih]; rfl

theorem crc32Rounds_add (m n x : Nat) :
    crc32Rounds (m + n) x = crc32Rounds m (crc32Rounds n x) := by
  induction n generalizing x with
  | zero => rfl
  | succ n ih =>
    rw [show m + (n + 1) = (m + n) + 1 from rfl, crc32Rounds, crc32Rounds, ih]

theorem crc32Byte_xor_state (c d b : Nat) :
    crc32Byte (c ^^^ d) b = crc32Byte c b ^^^ crc32Rounds 8 d := by
  unfold crc32Byte
  rw [Nat.xor_comm c d, Nat.xor_assoc, crc32Rounds_xor, Nat.xor_comm (crc32Rounds 8 d)]

theorem crc32Byte_xor_byte (c b e : Nat) :
    crc32Byte c (b ^^^ e) = crc32Byte c b ^^^ crc32Rounds 8 e := by
  unfold crc32Byte
  rw [← Nat.xor_assoc, crc32Rounds_xor]

theorem foldl_crc32Byte_xor (l : List Nat) (c d : Nat) :
    l.foldl crc32Byte (c ^^^ d) =
      l.foldl crc32Byte c ^^^ crc32Rounds (8 * l.length) d := by
  induction l generalizing c d with
  | nil => rfl
  | cons b t ih =>
    rw [List.foldl_cons, List.foldl_cons, crc32Byte_xor_state, ih, List.length_cons,
      ← crc32Rounds_add, show 8 * t.length + 8 = 8 * (t.length + 1) by ring]

/-- Flipping an XOR mask into byte `i` of the message changes the final
CRC-32 by the image of the mask under `8 * (length - i)` linear rounds. -/
theorem crc32IEEE_set (t : List Nat) (i e : Nat) (hi : i < t.length) :
    crc32IEEE (t.set i (t.getD i 0 ^^^ e)) =
      crc32IEEE t ^^^ crc32Rounds (8 * (t.length - i)) e := by
  have hsplit : t = t.take i ++ t.getD i 0 :: t.drop (i + 1) := by
    rw [List.getD_eq_getElem t 0 hi, List.getElem_cons_drop t i hi,
      List.take_append_drop]
  have hset : t.set i (t.getD i 0 ^^^ e) =
      t.take i ++ (t.getD i 0 ^^^ e) :: t.drop (i + 1) :=
    List.set_eq_take_cons_drop _ hi
  have hlen : (t.drop (i + 1)).length = t.length - (i + 1) := List.length_drop _ _
  unfold crc32IEEE
  rw [hset]
  conv_rhs => rw [hsplit]
  rw [List.foldl_append, List.foldl_append, List.foldl_cons, List.foldl_cons,
    crc32Byte_xor_byte, foldl_crc32Byte_xor, hlen,
    ← crc32Rounds_add, show 8 * (t.length - (i + 1)) + 8 = 8 * (t.length - i) by omega]
  rw [Nat.xor_comm _ 4294967295, Nat.xor_comm _ 4294967295, ← Nat.xor_assoc]
  rw [show (List.take i t ++ t.getD i 0 :: List.drop (i + 1) t).length = t.length from by
    rw [← hsplit]]

/-- For every flip position inside the 28 covered bytes and every bit
of a byte, the CRC delta is nonzero (a finite check over the 224
single-bit error patterns, each a nonzero element of the reversed
CRC-32 polynomial ring). -/
theorem crc32_delta_nonzero :
    ∀ i < 28, ∀ j < 8, crc32Rounds (8 * (28 - i)) (2 ^ j) ≠ 0 := by decide

theorem xor_ne_self (a d : Nat) (hd : d ≠ 0) : a ^^^ d ≠ a := by
  intro hcontra
  have : a ^^^ (a ^^^ d) = a ^^^ a := by rw [hcontra]
  rw [← Nat.xor_assoc, Nat.xor_self, Nat.zero_xor] at this
  exact hd this

/-- Claim C5 (status: confirmed).  For buffers of length at least 32,
crc_valid holds iff the CRC-32 (IEEE) of bytes [0:28) equals the
little-endian value stored at [28:32); flipping any single bit of any
byte in [0:28) of a header whose CRC check passes makes crc_valid
false; and a CRC mismatch is never fatal: the pipeline still returns
the decoded header and the container built from it. -/
theorem c5_crc_check (content : List Nat) (h32 : 32 ≤ content.length) :
    ((decodeHeader content).crcValid = true ↔
      crc32IEEE (content.take 28) = uint32LE content 28) ∧
    (∀ i, i < 28 → ∀ j, j < 8 → (decodeHeader content).crcValid = true →
      (decodeHeader (content.set i (content.getD i 0 ^^^ 2 ^ j))).crcValid = false) ∧
    processBuffer content =
      (decodeHeader content,
        Except.ok (buildContainer (decodeHeader content).sampleRate (content.drop 32))) := by
  refine ⟨?_, ?_, processBuffer_ok content h32⟩
  · rw [decode_crcValid content h32]
    exact beq_iff_eq
  · intro i hi j hj hvalid
    rw [decode_crcValid content h32] at hvalid
    have hvalid2 : crc32IEEE (content.take 28) = uint32LE content 28 :=
      beq_iff_eq.mp hvalid
    have hstored : uint32LE (content.set i (content.getD i 0 ^^^ 2 ^ j)) 28 =
        uint32LE content 28 := by
      unfold uint32LE
      rw [@getD_set_ne content i 28 _ (by omega),
        @getD_set_ne content i (28 + 1) _ (by omega),
        @getD_set_ne content i (28 + 2) _ (by omega),
        @getD_set_ne content i (28 + 3) _ (by omega)]
    have htake : (content.set i (content.getD i 0 ^^^ 2 ^ j)).take 28 =
        (content.take 28).set i (content.getD i 0 ^^^ 2 ^ j) :=
      take_set_of_lt content _ hi
    have hlen28 : (content.take 28).length = 28 := by
      rw [List.length_take]
      omega
    have hgd : content.getD i 0 = (content.take 28).getD i 0 :=
      (getD_take content hi).symm
    rw [decode_crcValid _ (by rw [List.length_set]; exact h32)]
    rw [hstored, htake, hgd,
      crc32IEEE_set (content.take 28) i (2 ^ j) (by rw [hlen28]; exact hi),
      hlen28, hvalid2]
    exact beq_eq_false_iff_ne.mpr
      (xor_ne_self _ _ (crc32_delta_nonzero i hi j hj))

/-- Witness for C5 at a concrete input: a 32-byte buffer of 28 zero
bytes followed by their correct CRC-32 (little-endian 2154854377). -/
theorem c5_crc_check_witness :
    32 ≤ (List.replicate 28 0 ++ [233, 119, 112, 128] : List Nat).length ∧
      (((decodeHeader (List.replicate 28 0 ++ [233, 119, 112, 128])).crcValid = true ↔
        crc32IEEE ((List.replicate 28 0 ++ [233, 119, 112, 128]).take 28) =
          uint32LE (List.replicate 28 0 ++ [233, 119, 112, 128]) 28) ∧
      (∀ i, i < 28 → ∀ j, j < 8 →
        (decodeHeader (List.replicate 28 0 ++ [233, 119, 112, 128])).crcValid = true →
        (decodeHeader ((List.replicate 28 0 ++ [233, 119, 112, 128]).set i
          ((List.replicate 28 0 ++ [233, 119, 112, 128]).getD i 0 ^^^ 2 ^ j))).crcValid =
            false) ∧
      processBuffer (List.replicate 28 0 ++ [233, 119, 112, 128]) =
        (decodeHeader (List.replicate 28 0 ++ [233, 119, 112, 128]),
          Except.ok (buildContainer
            (decodeHeader (List.replicate 28 0 ++ [233, 119, 112, 128])).sampleRate
            ((List.replicate 28 0 ++ [233, 119, 112, 128]).drop 32)))) :=
  ⟨by decide, c5_crc_check (List.replicate 28 0 ++ [233, 119, 112, 128]) (by decide)⟩
